import Mathlib

/-!
# Verification of the simple-good-llm-memory MCP server core

Shallow embedding of the memory server's tool handlers (`src/sync.ts`),
the knowledge-graph sync service (`src/lib/simple-sync-service.ts`) and the
LLM entity extractor (`src/lib/simple-llm-service.ts`), together with
theorems settling the frozen specification claims.

JavaScript numbers are modelled as rationals (`ℚ`), counts and timestamps as
naturals. `x || d` (falsy coalescing on numbers) is modelled as
`if x = 0 then d else x` on present values and `d` on absent ones.
Components of the repository whose implementation files are not in the
source tree (the conscious-memory search internals, the memory store and the
graph store) are modelled from the specification; each such definition says
so in its doc comment.
-/

namespace MemoryMcp

/-! ## Importance normalization (save_memory handler, src/sync.ts lines 137-142)

The handler computes
`let safeImportance = importance || 5;`
`if (safeImportance > 0 && safeImportance < 1) safeImportance = Math.max(1, Math.floor(10 * safeImportance));`
-/

/-- The effective importance persisted by the `save_memory` tool handler.
`none` models an omitted `importance` argument; a supplied `0` is falsy in
JavaScript, so `importance || 5` replaces it by the default `5`. -/
def safeImportance (importance : Option ℚ) : ℚ :=
  let s : ℚ :=
    match importance with
    | none => 5
    | some v => if v = 0 then 5 else v
  if 0 < s ∧ s < 1 then max 1 ((⌊(10 : ℚ) * s⌋ : ℤ) : ℚ) else s

/-! ## Hybrid search (search_memories handler, src/sync.ts lines 203-245)

The handler delegates to `memoryService.searchMemories` (whose file is not in
the source tree; it is modelled from spec §4.2) and then paginates:
`offset = (page-1)*pageSize`, fetch `offset + pageSize*2` results, slice
`[offset, offset+pageSize)`, and report each score rounded to two decimals.
-/

/-- A candidate memory as ranked by the search engine: `score` is the
`finalScore` of spec §4.2 step 5 (the combination of semantic and keyword
scores, which live in external collaborators and are abstracted here). -/
structure SearchCandidate where
  id : String
  text : String
  tags : List String
  importance : ℚ
  score : ℚ
  timestamp : ℕ
  context : Option String
  source : String
  deriving DecidableEq, Repr

/-- Ranking order of spec §4.2 step 7: descending `finalScore`, ties broken by
descending importance, then descending timestamp. `rankLE a b` means `a` may
come no later than `b`. -/
def rankLE (a b : SearchCandidate) : Bool :=
  decide (b.score < a.score) ||
    (decide (a.score = b.score) &&
      (decide (b.importance < a.importance) ||
        (decide (a.importance = b.importance) && decide (b.timestamp ≤ a.timestamp))))

/-- Insert a candidate into a ranked list (insertion sort step). -/
def insertRanked (c : SearchCandidate) : List SearchCandidate → List SearchCandidate
  | [] => [c]
  | d :: t => if rankLE c d then c :: d :: t else d :: insertRanked c t

/-- Deterministic sort by `rankLE` (spec §4.2 step 7 requires a deterministic
order for pagination stability). -/
def sortRanked : List SearchCandidate → List SearchCandidate
  | [] => []
  | c :: t => insertRanked c (sortRanked t)

/-- Modelled from the spec: the ranked, filtered result sequence of
`ConsciousMemoryService.searchMemories` (file `src/lib/conscious-memory.ts`
is not in the source tree). Spec §4.2 step 6 drops candidates with
`finalScore < minScore`; step 7 sorts deterministically. -/
def rankedResults (cands : List SearchCandidate) (minScore : ℚ) : List SearchCandidate :=
  sortRanked (cands.filter fun c => decide (minScore ≤ c.score))

/-- Modelled from the spec: `searchMemories` returns the ranked, filtered
results truncated to the requested `limit` (spec §4.2; the `limit` option is
the call-site parameter `offset + pageSize * 2` in the handler). -/
def searchMemories (cands : List SearchCandidate) (limit : ℕ) (minScore : ℚ) :
    List SearchCandidate :=
  (rankedResults cands minScore).take limit

/-- `Math.round(x * 100) / 100`: JavaScript `Math.round` rounds half toward
positive infinity, i.e. `Math.round(y) = ⌊y + 1/2⌋`. -/
def round2 (x : ℚ) : ℚ := ((⌊x * 100 + 1/2⌋ : ℤ) : ℚ) / 100

/-- One entry of the `memories` array in the `search_memories` response
(src/sync.ts lines 236-244): the score is reported rounded to two decimals. -/
structure ReportedMemory where
  id : String
  content : String
  tags : List String
  importance : ℚ
  score : ℚ
  context : Option String
  source : String
  deriving DecidableEq, Repr

/-- The mapping from a search result to its reported form
(src/sync.ts lines 236-244). -/
def reportMemory (c : SearchCandidate) : ReportedMemory :=
  { id := c.id, content := c.text, tags := c.tags, importance := c.importance,
    score := round2 c.score, context := c.context, source := c.source }

/-- The effective minimum score `minScore || 0.15` (src/sync.ts line 215):
omitted or `0` (falsy) becomes the default `0.15`. -/
def effMinScore (minScore : Option ℚ) : ℚ :=
  match minScore with
  | none => 3/20
  | some m => if m = 0 then 3/20 else m

/-- The `memories` array returned by the `search_memories` tool handler
(src/sync.ts lines 203-245): `pageSize = limit || 10`,
`currentPage = page || 1`, `offset = (currentPage - 1) * pageSize`,
fetch `offset + pageSize * 2` results, slice `[offset, offset + pageSize)`,
report with rounded scores. -/
def searchMemoriesTool (cands : List SearchCandidate) (limit page : Option ℕ)
    (minScore : Option ℚ) : List ReportedMemory :=
  let pageSize : ℕ := match limit with | none => 10 | some n => if n = 0 then 10 else n
  let currentPage : ℕ := match page with | none => 1 | some n => if n = 0 then 1 else n
  let offset := (currentPage - 1) * pageSize
  let allResults := searchMemories cands (offset + pageSize * 2) (effMinScore minScore)
  ((allResults.drop offset).take pageSize).map reportMemory

/-! ## Entity extraction (src/lib/simple-llm-service.ts)

`extractKnowledge` prompts the model, strips markdown code fences from the
reply, parses JSON, and falls back to the empty result on any failure. The
remote model and `JSON.parse` are external: the model reply is an
`Except Unit (List Char)` parameter, and the parser a
`List Char → Option ParsedExtraction` parameter.
-/

/-- A property value on a graph node or relationship. -/
inductive PropValue where
  | str (s : String)
  | num (n : ℕ)
  deriving DecidableEq, Repr

/-- `ExtractedEntity` of src/lib/simple-llm-service.ts. -/
structure ExtractedEntity where
  id : String
  label : String
  properties : List (String × PropValue)
  deriving DecidableEq, Repr

/-- `ExtractedRelationship` of src/lib/simple-llm-service.ts; `properties`
is optional there (`rel.properties || {}` at the use site). -/
structure ExtractedRelationship where
  sourceEntityId : String
  targetEntityId : String
  type : String
  properties : Option (List (String × PropValue))
  deriving DecidableEq, Repr

/-- `KnowledgeExtractionResult` of src/lib/simple-llm-service.ts. -/
structure KnowledgeExtractionResult where
  entities : List ExtractedEntity
  relationships : List ExtractedRelationship
  deriving DecidableEq, Repr

/-- Whitespace for the purposes of `trim`. -/
def isWsChar (c : Char) : Bool := c = ' ' || c = '\n' || c = '\t' || c = '\r'

/-- `String.prototype.trim`: drop leading and trailing whitespace. -/
def trimChars (l : List Char) : List Char :=
  ((l.dropWhile isWsChar).reverse.dropWhile isWsChar).reverse

/-- Drop a single leading newline, if present: the `\n?` tail of the fence
patterns. -/
def dropNl (l : List Char) : List Char :=
  match l with
  | [] => []
  | c :: t => if c = '\n' then t else c :: t

/-- Global replacement of the literal pattern `pat` (plus one optional
following newline) by the empty string, scanning left to right exactly as
`String.prototype.replace` with a `g`-flagged regex of a literal followed by
`\n?` does. -/
def stripOcc (pat : List Char) : List Char → List Char
  | [] => []
  | c :: rest =>
    if h : pat ≠ [] ∧ pat.isPrefixOf (c :: rest) then
      stripOcc pat (dropNl ((c :: rest).drop pat.length))
    else
      c :: stripOcc pat rest
  termination_by l => l.length
  decreasing_by
    · have hlen : 1 ≤ pat.length := by
        cases hp : pat with
        | nil => exact absurd hp h.1
        | cons a s => simp
      have h1 : (dropNl ((c :: t).drop pat.length)).length ≤
          ((c :: t).drop pat.length).length := by
        cases hd : (c :: t).drop pat.length with
        | nil => simp [dropNl]
        | cons a s => by_cases ha : a = '\n' <;> simp [dropNl, ha]
      have h2 : ((c :: t).drop pat.length).length = (c :: t).length - pat.length := by
        simp
      simp only [List.length_cons] at h2 ⊢
      omega
    · simp

/-- The fence-stripping pipeline of `extractKnowledge`
(src/lib/simple-llm-service.ts lines 69-72):
`text.trim().replace(/```json\n?/g, '').replace(/```\n?/g, '').trim()`. -/
def cleanModelText (text : List Char) : List Char :=
  trimChars (stripOcc ("```".toList) (stripOcc ("```json".toList) (trimChars text)))

/-- The shape `JSON.parse` hands back, projected to the two fields the code
reads; each may be absent (`result.entities || []`). -/
structure ParsedExtraction where
  entities : Option (List ExtractedEntity)
  relationships : Option (List ExtractedRelationship)
  deriving DecidableEq, Repr

/-- `SimpleLLMService.extractKnowledge` (src/lib/simple-llm-service.ts lines
44-84): on provider failure or parse failure the `catch` returns the empty
result; on success the parsed fields are defaulted to `[]`. The function is
total: it never propagates an exception. -/
def extractKnowledge (parseJson : List Char → Option ParsedExtraction)
    (providerReply : Except Unit (List Char)) : KnowledgeExtractionResult :=
  match providerReply with
  | .error _ => { entities := [], relationships := [] }
  | .ok text =>
    match parseJson (cleanModelText text) with
    | none => { entities := [], relationships := [] }
    | some r => { entities := r.entities.getD [], relationships := r.relationships.getD [] }

/-! ## Knowledge-graph sync (src/lib/simple-sync-service.ts)

`syncKnowledgeGraph` fetches up to 100 memories (empty query, no state
filter), and for each one independently: extract, upsert a `Memory` node,
upsert each entity node with a `MENTIONS` relationship from the memory node,
upsert each extracted relationship; count `processed` on success and
`errors` on a per-item failure.
-/

/-- `syncState` from spec §3 (the data model): owned by the sync engine.
The field exists on records so claims about it can be stated; the code in
src/lib/simple-sync-service.ts never reads it. -/
inductive SyncState where
  | unsynced
  | synced
  | failed (n : ℕ)
  deriving DecidableEq, Repr

/-- A stored memory as seen by the sync service: `timestamp` is
`metadata.timestamp`, with `0` playing the role of a missing (falsy) value in
`memory.metadata.timestamp || Date.now()`. -/
structure SyncMemory where
  id : String
  text : String
  tags : List String
  timestamp : ℕ
  syncState : SyncState
  deriving DecidableEq, Repr

/-- `KgNode` of src/types/knowledge-graph.ts as used by the sync service. -/
structure KgNode where
  id : String
  type : String
  properties : List (String × PropValue)
  deriving DecidableEq, Repr

/-- `KgRelationship` of src/types/knowledge-graph.ts as used by the sync
service. -/
structure KgRelationship where
  id : String
  sourceNodeId : String
  targetNodeId : String
  type : String
  properties : List (String × PropValue)
  deriving DecidableEq, Repr

/-- One upsert issued to the graph service (`addNode` / `addRelationship`). -/
inductive GraphOp where
  | addNode (n : KgNode)
  | addRel (r : KgRelationship)
  deriving DecidableEq, Repr

/-- The key under which an op is merged: the node keyspace (`true`) or the
relationship keyspace (`false`), paired with the id. -/
def opKey : GraphOp → Bool × String
  | .addNode n => (true, n.id)
  | .addRel r => (false, r.id)

/-- The `Memory`-typed node built for a memory (src/lib/simple-sync-service.ts
lines 49-57); `now` stands for `Date.now()`. -/
def memoryNodeOf (now : ℕ) (m : SyncMemory) : KgNode :=
  { id := "Memory_" ++ m.id, type := "Memory",
    properties := [("memoryId", .str m.id), ("content", .str m.text),
      ("timestamp", .num (if m.timestamp = 0 then now else m.timestamp))] }

/-- The `MENTIONS` relationship from the memory node to an extracted entity
(src/lib/simple-sync-service.ts lines 72-78). -/
def mentionsRel (m : SyncMemory) (e : ExtractedEntity) : KgRelationship :=
  { id := "rel-" ++ ("Memory_" ++ m.id) ++ "-mentions-" ++ e.id,
    sourceNodeId := "Memory_" ++ m.id, targetNodeId := e.id,
    type := "MENTIONS", properties := [] }

/-- The relationship built from an extracted relationship
(src/lib/simple-sync-service.ts lines 84-93). -/
def extractedRel (r : ExtractedRelationship) : KgRelationship :=
  { id := "rel-" ++ r.sourceEntityId ++ "-" ++ r.type ++ "-" ++ r.targetEntityId,
    sourceNodeId := r.sourceEntityId, targetNodeId := r.targetEntityId,
    type := r.type, properties := r.properties.getD [] }

/-- The ordered list of graph upserts issued while processing one memory
whose extraction succeeded (the loop body, src/lib/simple-sync-service.ts
lines 48-94). -/
def memoryOps (now : ℕ) (m : SyncMemory) (ex : KnowledgeExtractionResult) : List GraphOp :=
  GraphOp.addNode (memoryNodeOf now m) ::
    ((ex.entities.map fun e =>
        [GraphOp.addNode { id := e.id, type := e.label, properties := e.properties },
         GraphOp.addRel (mentionsRel m e)]).flatten
      ++ ex.relationships.map fun r => GraphOp.addRel (extractedRel r))

/-- The graph store as two keyed maps. Modelled from the spec:
`knowledge-graph-service.ts` is not in the source tree; spec §4.3 and §9 say
`addNode`/`addRelationship` are merge-semantics upserts keyed by id
(create-if-absent, else no duplicate). -/
@[ext]
structure GraphState where
  nodes : String → Option KgNode
  rels : String → Option KgRelationship

/-- Modelled from the spec: applying one merge-semantics upsert. -/
def applyOp (g : GraphState) : GraphOp → GraphState
  | .addNode n => { g with nodes := fun i => if i = n.id then some n else g.nodes i }
  | .addRel r => { g with rels := fun i => if i = r.id then some r else g.rels i }

/-- Applying a list of upserts in order. -/
def applyOps (g : GraphState) (ops : List GraphOp) : GraphState :=
  ops.foldl applyOp g

/-- The `SyncResult` counters of src/lib/simple-sync-service.ts. -/
structure SyncResult where
  processed : ℕ
  errors : ℕ
  skipped : ℕ
  deriving DecidableEq, Repr

/-- The candidate set of a sync run: the code calls
`retrieveMemories('', { limit: 100 })` (src/lib/simple-sync-service.ts lines
37-39), never consulting `syncState` and never reading the `forceFullResync`
option, so the candidates are the first 100 stored memories regardless of
either. Retrieval itself is modelled from the spec (`memory-store.ts` is not
in the source tree; spec §4.1 `listAll` yields the records matching the
filter, here unfiltered, truncated to the requested limit). -/
def syncCandidates (memories : List SyncMemory) (fullResync : Bool) : List SyncMemory :=
  let _ := fullResync
  memories.take 100

/-- Whether an `Except` is a success. -/
def exOk : Except Unit KnowledgeExtractionResult → Bool
  | .ok _ => true
  | .error _ => false

/-- One iteration of the sync loop (src/lib/simple-sync-service.ts lines
43-101): the whole item body sits in a `try`; a failure increments `errors`
and the loop continues, a success applies the item's upserts and increments
`processed`. The per-item failure source is modelled at the extraction
call (`extract`); the graph store is an external collaborator the spec
assumes correct. `nowOf` gives the `Date.now()` value observed while
processing an item. -/
def syncStep (extract : SyncMemory → Except Unit KnowledgeExtractionResult)
    (nowOf : SyncMemory → ℕ) : GraphState × SyncResult → SyncMemory → GraphState × SyncResult
  | (g, r), m =>
    match extract m with
    | .error _ => (g, { r with errors := r.errors + 1 })
    | .ok ex => (applyOps g (memoryOps (nowOf m) m ex), { r with processed := r.processed + 1 })

/-- `SimpleSyncService.syncKnowledgeGraph` (src/lib/simple-sync-service.ts
lines 29-109): fold the sync loop over the candidate set, starting from
counters `{ processed := 0, errors := 0, skipped := 0 }`. -/
def runSync (extract : SyncMemory → Except Unit KnowledgeExtractionResult)
    (nowOf : SyncMemory → ℕ) (g : GraphState) (memories : List SyncMemory)
    (fullResync : Bool) : GraphState × SyncResult :=
  (syncCandidates memories fullResync).foldl (syncStep extract nowOf)
    (g, { processed := 0, errors := 0, skipped := 0 })

/-- The upserts issued while processing the given list of memories in order
(failed items issue none). -/
def syncOpsList (extract : SyncMemory → Except Unit KnowledgeExtractionResult)
    (nowOf : SyncMemory → ℕ) (l : List SyncMemory) : List GraphOp :=
  (l.map fun m =>
    match extract m with
    | .error _ => []
    | .ok ex => memoryOps (nowOf m) m ex).flatten

/-- The flat list of upserts a sync run issues. -/
def syncOps (extract : SyncMemory → Except Unit KnowledgeExtractionResult)
    (nowOf : SyncMemory → ℕ) (memories : List SyncMemory) (fullResync : Bool) :
    List GraphOp :=
  syncOpsList extract nowOf (syncCandidates memories fullResync)

/-- The most recent node written under key `k` by a list of ops, if any. -/
def lastNodeWrite (ops : List GraphOp) (k : String) : Option KgNode :=
  ops.reverse.findSome? fun op =>
    match op with
    | .addNode n => if k = n.id then some n else none
    | .addRel _ => none

/-- The most recent relationship written under key `k` by a list of ops. -/
def lastRelWrite (ops : List GraphOp) (k : String) : Option KgRelationship :=
  ops.reverse.findSome? fun op =>
    match op with
    | .addNode _ => none
    | .addRel r => if k = r.id then some r else none

/-- Is this op a `Tag` node or a `HAS_TAG` relationship upsert? -/
def isTagOp : GraphOp → Bool
  | .addNode n => n.type == "Tag"
  | .addRel r => r.type == "HAS_TAG"

/-! ## Memory deletion (delete_memory handler, src/sync.ts lines 338-385) -/

/-- Modelled from the spec: `deleteMemory` (in `conscious-memory.ts`, not in
the source tree) removes the record and returns `false` if the id is already
absent (spec §4.1 `delete`). The store is modelled as the list of stored
ids. -/
def deleteMemory (store : List String) (id : String) : List String × Bool :=
  (store.filter fun x => x ≠ id, store.contains id)

/-- The response of the `delete_memory` tool handler (src/sync.ts lines
342-365): `success` is the boolean from `deleteMemory` and the MCP response
carries `isError: !success`. -/
structure DeleteResponse where
  success : Bool
  isError : Bool
  deriving DecidableEq, Repr

/-- `delete_memory` tool handler: new store state and the response flags. -/
def deleteMemoryTool (store : List String) (id : String) : List String × DeleteResponse :=
  let (s, ok) := deleteMemory store id
  (s, { success := ok, isError := !ok })

/-! ## Concrete instances used by witnesses and counterexamples -/

/-- A candidate scoring `0.152`, used to exhibit the score-rounding gap. -/
def roundGapCand : SearchCandidate :=
  { id := "m1", text := "alpha", tags := [], importance := 5, score := 19/125,
    timestamp := 0, context := none, source := "explicit" }

/-- A candidate scoring `0.19`. -/
def witCand : SearchCandidate :=
  { id := "w1", text := "beta", tags := [], importance := 5, score := 19/100,
    timestamp := 0, context := none, source := "explicit" }

/-- Three candidates with distinct scores for the pagination witness. -/
def pageCand1 : SearchCandidate :=
  { id := "p1", text := "one", tags := [], importance := 5, score := 9/10,
    timestamp := 3, context := none, source := "explicit" }

def pageCand2 : SearchCandidate :=
  { id := "p2", text := "two", tags := [], importance := 5, score := 4/5,
    timestamp := 2, context := none, source := "explicit" }

def pageCand3 : SearchCandidate :=
  { id := "p3", text := "three", tags := [], importance := 5, score := 7/10,
    timestamp := 1, context := none, source := "explicit" }

/-- A memory already marked synced, and one unsynced, for the candidate-set
claim. -/
def syncedMem : SyncMemory :=
  { id := "a", text := "already synced", tags := [], timestamp := 1,
    syncState := .synced }

def unsyncedMem : SyncMemory :=
  { id := "b", text := "not yet synced", tags := [], timestamp := 2,
    syncState := .unsynced }

/-- A memory carrying one tag, whose extraction returns nothing, for the
HAS_TAG claim. -/
def taggedMem : SyncMemory :=
  { id := "t", text := "tagged memory", tags := ["alpha"], timestamp := 1,
    syncState := .unsynced }

/-- An extraction result with a single entity, for the MENTIONS witness. -/
def oneEntity : ExtractedEntity :=
  { id := "ent1", label := "Technology", properties := [("name", .str "chroma")] }

def oneEntityExtraction : KnowledgeExtractionResult :=
  { entities := [oneEntity], relationships := [] }

/-! # Theorems -/

/-! ## Search helper lemmas -/

theorem mem_insertRanked {a c : SearchCandidate} :
    ∀ {l : List SearchCandidate}, a ∈ insertRanked c l ↔ a = c ∨ a ∈ l
  | [] => by simp [insertRanked]
  | d :: t => by
    by_cases h : rankLE c d
    · simp [insertRanked, h]
    · simp only [insertRanked, if_neg h, List.mem_cons, mem_insertRanked (l := t)]
      tauto

theorem mem_sortRanked {a : SearchCandidate} :
    ∀ {l : List SearchCandidate}, a ∈ sortRanked l ↔ a ∈ l
  | [] => by simp [sortRanked]
  | c :: t => by
    simp [sortRanked, mem_insertRanked, mem_sortRanked (l := t)]

theorem score_le_of_mem_rankedResults {cands : List SearchCandidate} {t : ℚ}
    {c : SearchCandidate} (h : c ∈ rankedResults cands t) : t ≤ c.score := by
  have h' := mem_sortRanked.mp h
  exact of_decide_eq_true (List.mem_filter.mp h').2

theorem round2_ge {t x : ℚ} (hden : (100 * t).den = 1) (hle : t ≤ x) :
    t ≤ round2 x := by
  have hnum : (((100 * t).num : ℤ) : ℚ) = 100 * t :=
    Rat.coe_int_num_of_den_eq_one hden
  have h1 : (100 : ℚ) * t ≤ 100 * x := by
    have : (0 : ℚ) ≤ 100 := by norm_num
    exact mul_le_mul_of_nonneg_left hle this
  have h2 : (((100 * t).num : ℤ) : ℚ) ≤ x * 100 + 1/2 := by
    rw [hnum]
    calc (100 : ℚ) * t ≤ 100 * x := h1
    _ = x * 100 := by ring
    _ ≤ x * 100 + 1/2 := by linarith
  have h3 : (100 * t).num ≤ ⌊x * 100 + 1/2⌋ := Int.le_floor.mpr h2
  have h4 : (((100 * t).num : ℤ) : ℚ) / 100 ≤ ((⌊x * 100 + 1/2⌋ : ℤ) : ℚ) / 100 := by
    have hc : (((100 * t).num : ℤ) : ℚ) ≤ ((⌊x * 100 + 1/2⌋ : ℤ) : ℚ) := by
      exact_mod_cast h3
    exact div_le_div_of_nonneg_right hc (by norm_num)
  have h5 : (((100 * t).num : ℤ) : ℚ) / 100 = t := by
    rw [hnum]; ring
  rw [round2]
  calc t = (((100 * t).num : ℤ) : ℚ) / 100 := h5.symm
  _ ≤ ((⌊x * 100 + 1/2⌋ : ℤ) : ℚ) / 100 := h4

/-! ## C1: minScore cutoff -/

/-- C1 (counterexample). The claim says every result in the returned result
set of `search_memories` has score `≥ t` for the threshold `t` passed as
`minScore`. At `minScore = 0.151` with a single candidate whose engine score
is `0.152` (which survives the cutoff), the tool reports the score rounded to
two decimals, `0.15 < 0.151`, so the claim as stated is false. -/
theorem c1_reported_score_counterexample :
    ¬ (∀ r ∈ searchMemoriesTool [roundGapCand] none none (some (151/1000)),
        (151 : ℚ)/1000 ≤ r.score) := by
  intro hall
  have hlist : searchMemoriesTool [roundGapCand] none none (some (151/1000))
      = [reportMemory roundGapCand] := by
    norm_num [searchMemoriesTool, searchMemories, rankedResults, sortRanked,
      insertRanked, effMinScore, roundGapCand]
  rw [hlist] at hall
  have h := hall (reportMemory roundGapCand) (List.mem_singleton_self _)
  have hlt : (reportMemory roundGapCand).score < 151/1000 := by
    norm_num [reportMemory, round2, roundGapCand, Int.floor_eq_iff]
  exact absurd h (not_le.mpr hlt)

/-- C1 (amended). Every threshold `t` supplied as `minScore` is bounded by the
effective threshold `minScore || 0.15`; every result produced by the search
engine has underlying score `≥` that effective threshold (the cutoff is
self-consistent with the engine scores); and whenever the effective threshold
is a multiple of `0.01` — in particular the default `0.15` — the rounded
scores reported by the `search_memories` tool are also `≥` the threshold.
For other thresholds the reported score can undershoot by at most `0.005`
due to the two-decimal rounding. -/
theorem c1_min_score_cutoff (cands : List SearchCandidate) (limit page : Option ℕ)
    (minScore : Option ℚ) :
    (∀ t, minScore = some t → 0 ≤ t → t ≤ effMinScore minScore)
    ∧ (∀ L c, c ∈ searchMemories cands L (effMinScore minScore) →
        effMinScore minScore ≤ c.score)
    ∧ ((100 * effMinScore minScore).den = 1 →
        ∀ r ∈ searchMemoriesTool cands limit page minScore,
          effMinScore minScore ≤ r.score) := by
  refine ⟨?_, ?_, ?_⟩
  · intro t ht h0
    subst ht
    simp only [effMinScore]
    by_cases h : t = 0
    · subst h; norm_num
    · simp [h]
  · intro L c hc
    exact score_le_of_mem_rankedResults (List.mem_of_mem_take hc)
  · intro hden r hr
    simp only [searchMemoriesTool, List.mem_map] at hr
    obtain ⟨c, hc, hrc⟩ := hr
    have hc1 : c ∈ searchMemories cands _ (effMinScore minScore) :=
      List.mem_of_mem_drop (List.mem_of_mem_take hc)
    have hscore : effMinScore minScore ≤ c.score :=
      score_le_of_mem_rankedResults (List.mem_of_mem_take hc1)
    have : r.score = round2 c.score := by rw [← hrc]; rfl
    rw [this]
    exact round2_ge hden hscore

/-- C1 (witness): the amended theorem applied to a concrete candidate with
score `0.19` and the default threshold `0.15`. -/
theorem c1_min_score_cutoff_witness :
    (3 : ℚ)/20 ≤ effMinScore (some (3/20))
    ∧ effMinScore (some (3/20)) ≤ witCand.score
    ∧ effMinScore (some (3/20)) ≤ (reportMemory witCand).score := by
  have h := c1_min_score_cutoff [witCand] none none (some (3/20))
  refine ⟨h.1 (3/20) rfl (by norm_num), h.2.1 20 witCand ?_,
    h.2.2 ?_ (reportMemory witCand) ?_⟩
  · norm_num [searchMemories, rankedResults, sortRanked, insertRanked,
      effMinScore, witCand]
  · norm_num [effMinScore]
  · norm_num [searchMemoriesTool, searchMemories, rankedResults, sortRanked,
      insertRanked, effMinScore, witCand]

/-! ## C3: pagination -/

theorem take_drop_take_slice {α : Type} (l : List α) (o s : ℕ) :
    ((l.take (o + s * 2)).drop o).take s = (l.drop o).take s := by
  rw [List.drop_take]
  have h1 : o + s * 2 - o = s * 2 := by omega
  rw [h1, List.take_take]
  have h2 : min s (s * 2) = s := by omega
  rw [h2]

/-- The page returned by the `search_memories` handler is the slice
`[(p-1)·s, p·s)` of the full ranked, filtered sequence: fetching
`offset + pageSize*2` results and slicing `[offset, offset+pageSize)` never
truncates the slice itself. -/
theorem toolPageSlice (cands : List SearchCandidate) (minScore : Option ℚ)
    (p s : ℕ) (hp : p ≠ 0) (hs : s ≠ 0) :
    searchMemoriesTool cands (some s) (some p) minScore
      = (((rankedResults cands (effMinScore minScore)).drop ((p - 1) * s)).take s).map
          reportMemory := by
  simp only [searchMemoriesTool, searchMemories, if_neg hp, if_neg hs]
  rw [take_drop_take_slice]

/-- C3. For a fixed candidate set and query, `search_memories` with 1-based
page `p` and page size `s` returns exactly the slice `[(p-1)·s, p·s)` of the
ranked, filtered result sequence; consecutive pages `p` and `p+1` concatenate
to the slice `[(p-1)·s, (p+1)·s)` (no overlap, no gap); and a page past the
end of the results is the empty list, not an error. -/
theorem c3_pagination (cands : List SearchCandidate) (minScore : Option ℚ)
    (p s : ℕ) (hp : 1 ≤ p) (hs : 1 ≤ s) :
    searchMemoriesTool cands (some s) (some p) minScore
      = (((rankedResults cands (effMinScore minScore)).drop ((p - 1) * s)).take s).map
          reportMemory
    ∧ searchMemoriesTool cands (some s) (some p) minScore
        ++ searchMemoriesTool cands (some s) (some (p + 1)) minScore
      = (((rankedResults cands (effMinScore minScore)).drop ((p - 1) * s)).take (2 * s)).map
          reportMemory
    ∧ ((rankedResults cands (effMinScore minScore)).length ≤ (p - 1) * s →
        searchMemoriesTool cands (some s) (some p) minScore = []) := by
  have hp0 : p ≠ 0 := by omega
  have hs0 : s ≠ 0 := by omega
  have h1 := toolPageSlice cands minScore p s hp0 hs0
  have h2 := toolPageSlice cands minScore (p + 1) s (by omega) hs0
  refine ⟨h1, ?_, ?_⟩
  · rw [h1, h2]
    set l := rankedResults cands (effMinScore minScore) with hl
    have hpp : (p + 1 - 1) * s = s + (p - 1) * s := by
      have h3 : p + 1 - 1 = (p - 1) + 1 := by omega
      rw [h3, Nat.succ_mul]
      omega
    have hdd : (l.drop ((p - 1) * s)).drop s = l.drop (s + (p - 1) * s) := by
      rw [List.drop_drop]
      congr 1
      omega
    have hss : 2 * s = s + s := by omega
    rw [hpp, ← hdd, ← List.map_append, ← List.take_add, hss]
  · intro hlen
    rw [h1, List.drop_eq_nil_of_le hlen]
    simp

/-- C3 (witness): three ranked candidates, page 2 of size 2 holds exactly the
third-ranked one. -/
theorem c3_pagination_witness :
    searchMemoriesTool [pageCand1, pageCand2, pageCand3] (some 2) (some 2) none
      = [reportMemory pageCand3] := by
  have h := (c3_pagination [pageCand1, pageCand2, pageCand3] none 2 2
    (by omega) (by omega)).1
  rw [h]
  norm_num [rankedResults, sortRanked, insertRanked, rankLE, effMinScore,
    pageCand1, pageCand2, pageCand3]

/-! ## C2: importance rescaling -/

/-- C2 (counterexample). The claim says the persisted importance is always an
integer in `[1,10]`. The input schema admits any number in `[0,10]`, and a
supplied `2.5` is `≥ 1`, so it passes through unchanged and is persisted as
the non-integer `5/2` (denominator `2`). -/
theorem c2_importance_counterexample :
    safeImportance (some (5/2)) = 5/2 ∧ (safeImportance (some (5/2))).den ≠ 1 := by
  constructor
  · norm_num [safeImportance]
  · have h : safeImportance (some (5/2)) = 5/2 := by norm_num [safeImportance]
    rw [h]
    norm_num [Rat.den]

/-- C2 (amended). For a supplied importance in the schema range `[0,10]`:
the persisted value always lies in `[1,10]`; a value in the open interval
`(0,1)` is rescaled to the integer `max 1 ⌊10·v⌋` (an integer between 1 and
9, so in particular `0.7` becomes `7`); a value `≥ 1` passes through
unchanged — hence a non-integer such as `2.5` is persisted as-is, so the
persisted value need not be an integer. An omitted importance also yields a
value in `[1,10]` (namely the default `5`). -/
theorem c2_importance_rescale (v : ℚ) (h0 : 0 ≤ v) (h10 : v ≤ 10) :
    (1 ≤ safeImportance (some v) ∧ safeImportance (some v) ≤ 10)
    ∧ (0 < v → v < 1 →
        safeImportance (some v) = ((max 1 ⌊(10 : ℚ) * v⌋ : ℤ) : ℚ)
          ∧ (safeImportance (some v)).den = 1
          ∧ safeImportance (some v) ≤ 9)
    ∧ (1 ≤ v → safeImportance (some v) = v)
    ∧ (1 ≤ safeImportance none ∧ safeImportance none ≤ 10) := by
  by_cases hz : v = 0
  · subst hz
    refine ⟨?_, ?_, ?_, ?_⟩
    · constructor <;> norm_num [safeImportance]
    · intro h; norm_num at h
    · intro h; norm_num at h
    · constructor <;> norm_num [safeImportance]
  · by_cases hlt : 0 < v ∧ v < 1
    · have hfl9 : ⌊(10 : ℚ) * v⌋ ≤ 9 := by
        have : (10 : ℚ) * v < 10 := by nlinarith [hlt.2]
        have h9 : ⌊(10 : ℚ) * v⌋ < 10 := by
          rw [Int.floor_lt]
          exact_mod_cast this
        omega
      have hval : safeImportance (some v) = ((max 1 ⌊(10 : ℚ) * v⌋ : ℤ) : ℚ) := by
        simp only [safeImportance, if_neg hz, if_pos hlt]
        rw [Int.cast_max]
        norm_num
      refine ⟨?_, fun _ _ => ⟨hval, ?_, ?_⟩, fun h1 => absurd hlt.2 (not_lt.mpr h1), ?_⟩
      · rw [hval]
        constructor
        · exact_mod_cast Int.le_max_left 1 _
        · have : max 1 ⌊(10 : ℚ) * v⌋ ≤ 10 := by omega
          exact_mod_cast this
      · rw [hval]; exact Rat.den_intCast _
      · rw [hval]
        have : max 1 ⌊(10 : ℚ) * v⌋ ≤ 9 := by omega
        exact_mod_cast this
      · constructor <;> norm_num [safeImportance]
    · have h1v : 1 ≤ v := by
        rcases not_and_or.mp hlt with h | h
        · exact absurd (lt_of_le_of_ne h0 (Ne.symm hz)) h
        · exact not_lt.mp h
      have hval : safeImportance (some v) = v := by
        simp only [safeImportance, if_neg hz, if_neg hlt]
      refine ⟨⟨by rw [hval]; exact h1v, by rw [hval]; exact h10⟩,
        fun hv0 hv1 => absurd hv1 (not_lt.mpr h1v), fun _ => hval, ?_⟩
      constructor <;> norm_num [safeImportance]

/-- C2 (witness): the amended theorem applied at `0.7` (persisted as `7`) and
at `8` (persisted unchanged), matching the spec's own test property. -/
theorem c2_importance_rescale_witness :
    safeImportance (some (7/10)) = 7 ∧ safeImportance (some 8) = 8 := by
  constructor
  · have h := ((c2_importance_rescale (7/10) (by norm_num) (by norm_num)).2.1
      (by norm_num) (by norm_num)).1
    rw [h]
    norm_num [Int.floor_eq_iff]
  · exact (c2_importance_rescale 8 (by norm_num) (by norm_num)).2.2.1 (by norm_num)

/-! ## C10: importance 0 and omitted importance -/

/-- C10. `importance || 5` treats a supplied `0` exactly like an omitted
importance: both persist the default `5` — the `0` is neither rejected nor
rescaled to `max 1 ⌊10·0⌋ = 1`, even though the input schema admits `0`. -/
theorem c10_importance_zero_default :
    safeImportance none = 5 ∧ safeImportance (some 0) = 5 := by
  constructor <;> norm_num [safeImportance]

/-! ## Sync helper lemmas -/

theorem syncFold_result (extract : SyncMemory → Except Unit KnowledgeExtractionResult)
    (nowOf : SyncMemory → ℕ) :
    ∀ (l : List SyncMemory) (g : GraphState) (r : SyncResult),
      (l.foldl (syncStep extract nowOf) (g, r)).2
        = { processed := r.processed + l.countP (fun m => exOk (extract m)),
            errors := r.errors + l.countP (fun m => !exOk (extract m)),
            skipped := r.skipped }
  | [], g, r => by simp [List.countP_nil]
  | m :: t, g, r => by
    rw [List.foldl_cons]
    cases he : extract m with
    | error e =>
      rw [show syncStep extract nowOf (g, r) m = (g, { r with errors := r.errors + 1 })
          from by simp [syncStep, he]]
      rw [syncFold_result extract nowOf t g { r with errors := r.errors + 1 }]
      simp [List.countP_cons, he, exOk, SyncResult.mk.injEq] <;> omega
    | ok ex =>
      rw [show syncStep extract nowOf (g, r) m
            = (applyOps g (memoryOps (nowOf m) m ex), { r with processed := r.processed + 1 })
          from by simp [syncStep, he]]
      rw [syncFold_result extract nowOf t _ { r with processed := r.processed + 1 }]
      simp [List.countP_cons, he, exOk, SyncResult.mk.injEq] <;> omega

theorem syncFold_graph (extract : SyncMemory → Except Unit KnowledgeExtractionResult)
    (nowOf : SyncMemory → ℕ) :
    ∀ (l : List SyncMemory) (g : GraphState) (r : SyncResult),
      (l.foldl (syncStep extract nowOf) (g, r)).1 = applyOps g (syncOpsList extract nowOf l)
  | [], g, r => by simp [syncOpsList, applyOps]
  | m :: t, g, r => by
    rw [List.foldl_cons]
    cases he : extract m with
    | error e =>
      rw [show syncStep extract nowOf (g, r) m = (g, { r with errors := r.errors + 1 })
          from by simp [syncStep, he]]
      rw [syncFold_graph extract nowOf t g _]
      simp [syncOpsList, he]
    | ok ex =>
      rw [show syncStep extract nowOf (g, r) m
            = (applyOps g (memoryOps (nowOf m) m ex), { r with processed := r.processed + 1 })
          from by simp [syncStep, he]]
      rw [syncFold_graph extract nowOf t _ _]
      simp only [syncOpsList, List.map_cons, he, List.flatten_cons, applyOps,
        List.foldl_append]

theorem runSync_graph (extract : SyncMemory → Except Unit KnowledgeExtractionResult)
    (nowOf : SyncMemory → ℕ) (g : GraphState) (ms : List SyncMemory) (full : Bool) :
    (runSync extract nowOf g ms full).1 = applyOps g (syncOps extract nowOf ms full) := by
  rw [runSync, syncFold_graph, syncOps]

/-! ## C4: sync candidate selection -/

/-- C4 (evaluation at the failing input). With one already-synced and one
unsynced memory in the store, `syncKnowledgeGraph` selects both of them as
candidates whether or not `forceFullResync` is set: the candidate set never
consults `syncState` (the claimed unsynced-only selection would be `[unsyncedMem]`)
and is identical in the two modes. -/
theorem c4_candidate_selection :
    syncCandidates [syncedMem, unsyncedMem] false = [syncedMem, unsyncedMem]
    ∧ syncCandidates [syncedMem, unsyncedMem] true
        = syncCandidates [syncedMem, unsyncedMem] false
    ∧ [syncedMem, unsyncedMem].filter (fun m => m.syncState == SyncState.unsynced)
        = [unsyncedMem] := by
  refine ⟨rfl, rfl, ?_⟩
  decide

/-! ## C5: per-item failure isolation and counters -/

/-- C5. For every per-item outcome assignment, the sync loop processes every
candidate: a failing item increments `errors` and processing continues, so
`processed` counts exactly the successes, `errors` exactly the failures,
`processed + errors` equals the number of candidates, and no item is silently
skipped. -/
theorem c5_failure_isolation (extract : SyncMemory → Except Unit KnowledgeExtractionResult)
    (nowOf : SyncMemory → ℕ) (g : GraphState) (ms : List SyncMemory) (full : Bool) :
    (runSync extract nowOf g ms full).2.processed
        = (syncCandidates ms full).countP (fun m => exOk (extract m))
    ∧ (runSync extract nowOf g ms full).2.errors
        = (syncCandidates ms full).countP (fun m => !exOk (extract m))
    ∧ (runSync extract nowOf g ms full).2.processed
        + (runSync extract nowOf g ms full).2.errors
        = (syncCandidates ms full).length
    ∧ (runSync extract nowOf g ms full).2.skipped = 0 := by
  have h := syncFold_result extract nowOf (syncCandidates ms full) g
    { processed := 0, errors := 0, skipped := 0 }
  rw [runSync, h]
  have hcount : ∀ (l : List SyncMemory) (p : SyncMemory → Bool),
      l.countP p + l.countP (fun m => !p m) = l.length := by
    intro l p
    induction l with
    | nil => simp
    | cons a t ih =>
      simp only [List.countP_cons, List.length_cons]
      cases hp : p a <;> simp [hp] <;> omega
  refine ⟨by simp, by simp, ?_, by simp⟩
  simp only [Nat.zero_add]
  exact hcount _ _

/-! ## C6: idempotence of the sync upserts -/

theorem lastNodeWrite_append (l : List GraphOp) (op : GraphOp) (k : String) :
    lastNodeWrite (l ++ [op]) k
      = ((match op with
          | .addNode n => if k = n.id then some n else none
          | .addRel _ => none) : Option KgNode).or (lastNodeWrite l k) := by
  simp only [lastNodeWrite, List.reverse_append, List.reverse_singleton,
    List.singleton_append, List.findSome?_cons]
  cases op with
  | addNode n =>
    by_cases h : k = n.id <;> simp [h, Option.or]
  | addRel r => simp [Option.or]

theorem lastRelWrite_append (l : List GraphOp) (op : GraphOp) (k : String) :
    lastRelWrite (l ++ [op]) k
      = ((match op with
          | .addNode _ => none
          | .addRel r => if k = r.id then some r else none) : Option KgRelationship).or
          (lastRelWrite l k) := by
  simp only [lastRelWrite, List.reverse_append, List.reverse_singleton,
    List.singleton_append, List.findSome?_cons]
  cases op with
  | addNode n => simp [Option.or]
  | addRel r =>
    by_cases h : k = r.id <;> simp [h, Option.or]

theorem applyOps_nodes (ops : List GraphOp) (g : GraphState) (k : String) :
    (applyOps g ops).nodes k = (lastNodeWrite ops k).or (g.nodes k) := by
  induction ops using List.reverseRecOn with
  | nil => simp [applyOps, lastNodeWrite]
  | append_singleton l op ih =>
    rw [show applyOps g (l ++ [op]) = applyOp (applyOps g l) op
        from by simp [applyOps, List.foldl_append]]
    rw [lastNodeWrite_append]
    cases op with
    | addNode n =>
      by_cases h : k = n.id <;> simp [applyOp, h, ih, Option.or_assoc]
    | addRel r => simp [applyOp, ih]

theorem applyOps_rels (ops : List GraphOp) (g : GraphState) (k : String) :
    (applyOps g ops).rels k = (lastRelWrite ops k).or (g.rels k) := by
  induction ops using List.reverseRecOn with
  | nil => simp [applyOps, lastRelWrite]
  | append_singleton l op ih =>
    rw [show applyOps g (l ++ [op]) = applyOp (applyOps g l) op
        from by simp [applyOps, List.foldl_append]]
    rw [lastRelWrite_append]
    cases op with
    | addNode n => simp [applyOp, ih]
    | addRel r =>
      by_cases h : k = r.id <;> simp [applyOp, h, ih, Option.or_assoc]

theorem lastNodeWrite_isSome_iff (ops : List GraphOp) (k : String) :
    (lastNodeWrite ops k).isSome = true ↔ (true, k) ∈ ops.map opKey := by
  induction ops using List.reverseRecOn with
  | nil => simp [lastNodeWrite]
  | append_singleton l op ih =>
    rw [lastNodeWrite_append]
    cases op with
    | addNode n =>
      by_cases h : k = n.id <;>
        simp [h, Option.or, Option.isSome_or, ih, opKey, eq_comm]
    | addRel r => simp [Option.or, ih, opKey]

theorem lastRelWrite_isSome_iff (ops : List GraphOp) (k : String) :
    (lastRelWrite ops k).isSome = true ↔ (false, k) ∈ ops.map opKey := by
  induction ops using List.reverseRecOn with
  | nil => simp [lastRelWrite]
  | append_singleton l op ih =>
    rw [lastRelWrite_append]
    cases op with
    | addNode n => simp [Option.or, ih, opKey]
    | addRel r =>
      by_cases h : k = r.id <;>
        simp [h, Option.or, Option.isSome_or, ih, opKey, eq_comm]

theorem memoryOps_keys (now now' : ℕ) (m : SyncMemory) (ex : KnowledgeExtractionResult) :
    (memoryOps now' m ex).map opKey = (memoryOps now m ex).map opKey := by
  simp [memoryOps, opKey, memoryNodeOf]

theorem syncOpsList_keys (extract : SyncMemory → Except Unit KnowledgeExtractionResult)
    (nowOf nowOf' : SyncMemory → ℕ) (l : List SyncMemory) :
    (syncOpsList extract nowOf' l).map opKey = (syncOpsList extract nowOf l).map opKey := by
  induction l with
  | nil => simp [syncOpsList]
  | cons m t ih =>
    simp only [syncOpsList, List.map_cons, List.flatten_cons, List.map_append] at ih ⊢
    cases he : extract m with
    | error e => simpa using ih
    | ok ex =>
      rw [memoryOps_keys (nowOf m) (nowOf' m) m ex, ih]

/-- C6. Every upsert key is a deterministic function of the memory id, entity
id and relationship type (the wall-clock time only affects a property value),
so a second sync run over the same unchanged memories issues exactly the same
keys as the first; with merge semantics the second run leaves the graph state
exactly unchanged, and even with a different wall clock it defines no node
key and no relationship key that the first run had not already defined — no
duplicate nodes or relationships are ever created. -/
theorem c6_sync_idempotent (extract : SyncMemory → Except Unit KnowledgeExtractionResult)
    (nowOf nowOf' : SyncMemory → ℕ) (g : GraphState) (ms : List SyncMemory) (full : Bool) :
    (syncOps extract nowOf' ms full).map opKey = (syncOps extract nowOf ms full).map opKey
    ∧ (runSync extract nowOf (runSync extract nowOf g ms full).1 ms full).1
        = (runSync extract nowOf g ms full).1
    ∧ (∀ k, ((runSync extract nowOf' (runSync extract nowOf g ms full).1 ms full).1.nodes
            k).isSome
          = ((runSync extract nowOf g ms full).1.nodes k).isSome)
    ∧ (∀ k, ((runSync extract nowOf' (runSync extract nowOf g ms full).1 ms full).1.rels
            k).isSome
          = ((runSync extract nowOf g ms full).1.rels k).isSome) := by
  have hkeys : (syncOps extract nowOf' ms full).map opKey
      = (syncOps extract nowOf ms full).map opKey :=
    syncOpsList_keys extract nowOf nowOf' (syncCandidates ms full)
  have hanode : ∀ k, (lastNodeWrite (syncOps extract nowOf' ms full) k).isSome
      = (lastNodeWrite (syncOps extract nowOf ms full) k).isSome := by
    intro k
    have h1 := lastNodeWrite_isSome_iff (syncOps extract nowOf' ms full) k
    have h2 := lastNodeWrite_isSome_iff (syncOps extract nowOf ms full) k
    rw [hkeys] at h1
    have hiff := h1.trans h2.symm
    cases hb : (lastNodeWrite (syncOps extract nowOf' ms full) k).isSome <;>
      cases hc : (lastNodeWrite (syncOps extract nowOf ms full) k).isSome <;>
        simp_all
  have harel : ∀ k, (lastRelWrite (syncOps extract nowOf' ms full) k).isSome
      = (lastRelWrite (syncOps extract nowOf ms full) k).isSome := by
    intro k
    have h1 := lastRelWrite_isSome_iff (syncOps extract nowOf' ms full) k
    have h2 := lastRelWrite_isSome_iff (syncOps extract nowOf ms full) k
    rw [hkeys] at h1
    have hiff := h1.trans h2.symm
    cases hb : (lastRelWrite (syncOps extract nowOf' ms full) k).isSome <;>
      cases hc : (lastRelWrite (syncOps extract nowOf ms full) k).isSome <;>
        simp_all
  refine ⟨hkeys, ?_, ?_, ?_⟩
  · rw [runSync_graph, runSync_graph]
    apply GraphState.ext
    · funext k
      rw [applyOps_nodes, applyOps_nodes, ← Option.or_assoc, Option.or_self]
    · funext k
      rw [applyOps_rels, applyOps_rels, ← Option.or_assoc, Option.or_self]
  · intro k
    rw [runSync_graph, runSync_graph, applyOps_nodes, applyOps_nodes]
    simp [Option.isSome_or, hanode k, ← Bool.or_assoc, Bool.or_self]
  · intro k
    rw [runSync_graph, runSync_graph, applyOps_rels, applyOps_rels]
    simp [Option.isSome_or, harel k, ← Bool.or_assoc, Bool.or_self]

/-! ## C7: MENTIONS relationships and (absent) tag projection -/

/-- C7 (counterexample). The claim says a sync run upserts one `Tag` node and
one `HAS_TAG` relationship per tag of each processed memory. Processing a
memory that carries the tag `"alpha"` (with an extraction returning no
entities and no relationships) issues no `Tag` node and no `HAS_TAG`
relationship at all: `syncKnowledgeGraph` never reads the memory's tags. -/
theorem c7_has_tag_counterexample :
    ¬ ∃ op ∈ memoryOps 7 taggedMem { entities := [], relationships := [] },
        isTagOp op = true := by
  decide

/-- C7 (amended). For every successfully processed memory the engine upserts
a `MENTIONS` relationship from the memory node to each extracted entity node;
but it upserts no `Tag` nodes and no `HAS_TAG` relationships derived from the
memory's tags — the issued upserts are entirely independent of the memory's
tag set, so the graph's `HAS_TAG` edges are not reconciled by this engine. -/
theorem c7_mentions_no_tags (now : ℕ) (m : SyncMemory) (ex : KnowledgeExtractionResult)
    (tags' : List String) :
    (∀ e ∈ ex.entities, GraphOp.addRel (mentionsRel m e) ∈ memoryOps now m ex)
    ∧ memoryOps now { m with tags := tags' } ex = memoryOps now m ex := by
  constructor
  · intro e he
    simp only [memoryOps, List.mem_cons, List.mem_append, List.mem_flatten,
      List.mem_map]
    refine Or.inr (Or.inl ?_)
    exact ⟨[GraphOp.addNode { id := e.id, type := e.label, properties := e.properties },
      GraphOp.addRel (mentionsRel m e)], ⟨e, he, rfl⟩, by simp⟩
  · simp [memoryOps, memoryNodeOf, mentionsRel]

/-- C7 (witness): the amended theorem applied to a concrete memory and a
one-entity extraction. -/
theorem c7_mentions_no_tags_witness :
    GraphOp.addRel (mentionsRel taggedMem oneEntity)
        ∈ memoryOps 7 taggedMem oneEntityExtraction
    ∧ memoryOps 7 { taggedMem with tags := [] } oneEntityExtraction
        = memoryOps 7 taggedMem oneEntityExtraction := by
  have h := c7_mentions_no_tags 7 taggedMem oneEntityExtraction []
  exact ⟨h.1 oneEntity (by decide), h.2⟩

/-! ## C8: extractor error recovery -/

/-- C8. `extractKnowledge` never raises: on a provider error it returns the
empty result; when parsing the cleaned reply fails it returns the empty
result; and the known wrapping artifacts (markdown code fences) are stripped
from the reply before parsing — a fenced JSON payload is reduced to the bare
payload handed to the parser. -/
theorem c8_extract_recovery (parseJson : List Char → Option ParsedExtraction) :
    (∀ e, extractKnowledge parseJson (.error e)
        = { entities := [], relationships := [] })
    ∧ (∀ t, parseJson (cleanModelText t) = none →
        extractKnowledge parseJson (.ok t) = { entities := [], relationships := [] })
    ∧ cleanModelText ("```json\n\x7b\"entities\": []\x7d\n```".toList)
        = "\x7b\"entities\": []\x7d".toList := by
  refine ⟨fun e => rfl, fun t ht => ?_, ?_⟩
  · simp [extractKnowledge, ht]
  · simp +decide [cleanModelText, stripOcc, dropNl, trimChars, isWsChar]

/-- C8 (witness): a parser that rejects everything yields the empty result on
a successful provider reply. -/
theorem c8_extract_recovery_witness :
    extractKnowledge (fun _ => none) (.ok ("hello".toList))
      = { entities := [], relationships := [] } :=
  (c8_extract_recovery (fun _ => none)).2.1 ("hello".toList) rfl

/-! ## C9: delete of an absent id -/

/-- C9 (counterexample). The claim says a delete of an absent id is not
surfaced to the caller as an error. Deleting from an empty store returns
`false` from the service, and the `delete_memory` tool handler then responds
with `success: false` and `isError: true` — the absence is surfaced as an
error response. -/
theorem c9_delete_counterexample :
    (deleteMemory [] "x").2 = false ∧ (deleteMemoryTool [] "x").2.isError = true := by
  decide

/-- C9 (amended). `deleteMemory` returns `false` exactly when the id is
absent, in which case the store is unchanged and no exception propagates
(the function is total); deletion is idempotent — a second delete of the same
id returns `false` and changes nothing; but the tool handler sets
`isError: !success`, so a delete of an absent id is reported to the MCP
caller as an error response rather than silently. -/
theorem c9_delete_idempotent (store : List String) (id : String) :
    ((deleteMemory store id).2 = false ↔ id ∉ store)
    ∧ (id ∉ store → (deleteMemory store id).1 = store)
    ∧ deleteMemory (deleteMemory store id).1 id = ((deleteMemory store id).1, false)
    ∧ (deleteMemoryTool store id).2.isError = !(deleteMemory store id).2 := by
  refine ⟨?_, ?_, ?_, rfl⟩
  · simp [deleteMemory]
  · intro h
    simp only [deleteMemory]
    apply List.filter_eq_self.mpr
    intro a ha
    simp only [decide_eq_true_eq]
    exact fun heq => h (heq ▸ ha)
  · simp only [deleteMemory, Prod.mk.injEq]
    constructor
    · apply List.filter_eq_self.mpr
      intro a ha
      exact (List.mem_filter.mp ha).2
    · simp [List.mem_filter]

/-- C9 (witness): the amended theorem applied to a store holding only `"y"`
and a delete of the absent id `"x"`. -/
theorem c9_delete_idempotent_witness :
    (deleteMemory ["y"] "x").1 = ["y"]
    ∧ (deleteMemoryTool ["y"] "x").2.isError = !(deleteMemory ["y"] "x").2 := by
  have h := c9_delete_idempotent ["y"] "x"
  exact ⟨h.2.1 (by decide), h.2.2.2⟩

end MemoryMcp
